import Mathlib

/-!
Verification of the rank-checker pacing/diagnostics subsystem against its
natural-language specification.  Definitions are shallow embeddings of the
TypeScript/JavaScript sources under src/; rationals stand for JS numbers,
Option for nullable fields, String for status/verdict labels.
-/

namespace RankChecker

/-- Aggregated Spotify pacing metrics as consumed by the verdict classifiers
(src/scripts/playwright/manual_scan_1x10_no_playlist.spec.ts, lines 47-52):
`peak_rps`, `avg_rps`, `min_inter_start_s` are `number | null`,
`any_429_count` is a plain number. -/
structure Metrics where
  peak_rps : Option ℚ
  avg_rps : Option ℚ
  min_inter_start_s : Option ℚ
  any_429_count : ℤ
deriving DecidableEq

/-- The over-threshold test shared by both classifiers
(spec.ts lines 53-56 and 72-75):
`(peak_rps !== null && peak_rps > 2.0) || (avg_rps !== null && avg_rps > 2.0)
 || any_429_count > 0`. -/
def overRps (m : Metrics) : Bool :=
  (m.peak_rps.any fun p => decide ((2.0 : ℚ) < p)) ||
  (m.avg_rps.any fun a => decide ((2.0 : ℚ) < a)) ||
  decide (0 < m.any_429_count)

/-- `classifyLimiterVerdict` (spec.ts lines 47-64). -/
def classifyLimiterVerdict (m : Metrics) : String :=
  if overRps m then "NOT ACTIVE"
  else if m.min_inter_start_s.any fun s => decide ((0.45 : ℚ) ≤ s) then "ACTIVE"
  else "PARTIAL"

/-- `classifySafetyVerdict` (spec.ts lines 66-83). -/
def classifySafetyVerdict (m : Metrics) : String :=
  if overRps m then "NOT SAFE"
  else if m.min_inter_start_s.any fun s => decide ((0.45 : ℚ) ≤ s) then "SAFE"
  else "BORDERLINE"

/-- Proposition-level reading of the over-threshold condition:
peak above 2.0, or average above 2.0, or any 429 observed. -/
def OverThreshold (m : Metrics) : Prop :=
  (∃ p, m.peak_rps = some p ∧ (2.0 : ℚ) < p) ∨
  (∃ a, m.avg_rps = some a ∧ (2.0 : ℚ) < a) ∨
  0 < m.any_429_count

/-- Proposition-level reading of the minimum inter-start test:
the minimum inter-start gap is present and at least 0.45 seconds. -/
def MinInterOk (m : Metrics) : Prop :=
  ∃ s, m.min_inter_start_s = some s ∧ (0.45 : ℚ) ≤ s

lemma overRps_iff (m : Metrics) : overRps m = true ↔ OverThreshold m := by
  obtain ⟨p?, a?, s?, c⟩ := m
  cases p? <;> cases a? <;>
    simp [overRps, OverThreshold, Option.any, or_assoc]

lemma minInter_iff (m : Metrics) :
    (m.min_inter_start_s.any fun s => decide ((0.45 : ℚ) ≤ s)) = true ↔ MinInterOk m := by
  obtain ⟨p?, a?, s?, c⟩ := m
  cases s? <;> simp [MinInterOk, Option.any]

lemma classifyLimiterVerdict_over (m : Metrics) (h : overRps m = true) :
    classifyLimiterVerdict m = "NOT ACTIVE" := by
  simp [classifyLimiterVerdict, h]

lemma classifyLimiterVerdict_active (m : Metrics) (h : overRps m = false)
    (h2 : (m.min_inter_start_s.any fun s => decide ((0.45 : ℚ) ≤ s)) = true) :
    classifyLimiterVerdict m = "ACTIVE" := by
  simp [classifyLimiterVerdict, h, h2]

lemma classifyLimiterVerdict_fallthrough (m : Metrics) (h : overRps m = false)
    (h2 : (m.min_inter_start_s.any fun s => decide ((0.45 : ℚ) ≤ s)) = false) :
    classifyLimiterVerdict m = "PARTIAL" := by
  simp [classifyLimiterVerdict, h, h2]

lemma classifySafetyVerdict_over (m : Metrics) (h : overRps m = true) :
    classifySafetyVerdict m = "NOT SAFE" := by
  simp [classifySafetyVerdict, h]

lemma classifySafetyVerdict_safe (m : Metrics) (h : overRps m = false)
    (h2 : (m.min_inter_start_s.any fun s => decide ((0.45 : ℚ) ≤ s)) = true) :
    classifySafetyVerdict m = "SAFE" := by
  simp [classifySafetyVerdict, h, h2]

lemma classifySafetyVerdict_borderline (m : Metrics) (h : overRps m = false)
    (h2 : (m.min_inter_start_s.any fun s => decide ((0.45 : ℚ) ≤ s)) = false) :
    classifySafetyVerdict m = "BORDERLINE" := by
  simp [classifySafetyVerdict, h, h2]

/-- Claim C1: for every metrics input, the limiter verdict classifier returns
NOT ACTIVE exactly when peak_rps > 2.0 or avg_rps > 2.0 or any_429_count > 0;
otherwise ACTIVE exactly when min_inter_start_s >= 0.45 s; otherwise PARTIAL. -/
theorem limiter_verdict_classification (m : Metrics) :
    (classifyLimiterVerdict m = "NOT ACTIVE" ↔ OverThreshold m) ∧
    (classifyLimiterVerdict m = "ACTIVE" ↔ ¬ OverThreshold m ∧ MinInterOk m) ∧
    (classifyLimiterVerdict m = "PARTIAL" ↔ ¬ OverThreshold m ∧ ¬ MinInterOk m) := by
  by_cases h : overRps m = true
  · have hO : OverThreshold m := (overRps_iff m).mp h
    rw [classifyLimiterVerdict_over m h]
    refine ⟨⟨fun _ => hO, fun _ => rfl⟩,
      ⟨fun hc => absurd hc (by decide), fun hc => absurd hO hc.1⟩,
      ⟨fun hc => absurd hc (by decide), fun hc => absurd hO hc.1⟩⟩
  · have h' : overRps m = false := by simpa using h
    have hO : ¬ OverThreshold m := fun hc => h ((overRps_iff m).mpr hc)
    by_cases h2 : (m.min_inter_start_s.any fun s => decide ((0.45 : ℚ) ≤ s)) = true
    · have hM : MinInterOk m := (minInter_iff m).mp h2
      rw [classifyLimiterVerdict_active m h' h2]
      refine ⟨⟨fun hc => absurd hc (by decide), fun hc => absurd hc hO⟩,
        ⟨fun _ => ⟨hO, hM⟩, fun _ => rfl⟩,
        ⟨fun hc => absurd hc (by decide), fun hc => absurd hM hc.2⟩⟩
    · have h2' : (m.min_inter_start_s.any fun s => decide ((0.45 : ℚ) ≤ s)) = false := by
        simpa using h2
      have hM : ¬ MinInterOk m := fun hc => h2 ((minInter_iff m).mpr hc)
      rw [classifyLimiterVerdict_fallthrough m h' h2']
      refine ⟨⟨fun hc => absurd hc (by decide), fun hc => absurd hc hO⟩,
        ⟨fun hc => absurd hc (by decide), fun hc => absurd hc.2 hM⟩,
        ⟨fun _ => ⟨hO, hM⟩, fun _ => rfl⟩⟩

/-- Claim C2: for every metrics input, the safety verdict classifier returns
NOT SAFE exactly when peak_rps > 2.0 or avg_rps > 2.0 or any_429_count > 0;
otherwise SAFE exactly when min_inter_start_s >= 0.45 s; otherwise BORDERLINE. -/
theorem safety_verdict_classification (m : Metrics) :
    (classifySafetyVerdict m = "NOT SAFE" ↔ OverThreshold m) ∧
    (classifySafetyVerdict m = "SAFE" ↔ ¬ OverThreshold m ∧ MinInterOk m) ∧
    (classifySafetyVerdict m = "BORDERLINE" ↔ ¬ OverThreshold m ∧ ¬ MinInterOk m) := by
  by_cases h : overRps m = true
  · have hO : OverThreshold m := (overRps_iff m).mp h
    rw [classifySafetyVerdict_over m h]
    refine ⟨⟨fun _ => hO, fun _ => rfl⟩,
      ⟨fun hc => absurd hc (by decide), fun hc => absurd hO hc.1⟩,
      ⟨fun hc => absurd hc (by decide), fun hc => absurd hO hc.1⟩⟩
  · have h' : overRps m = false := by simpa using h
    have hO : ¬ OverThreshold m := fun hc => h ((overRps_iff m).mpr hc)
    by_cases h2 : (m.min_inter_start_s.any fun s => decide ((0.45 : ℚ) ≤ s)) = true
    · have hM : MinInterOk m := (minInter_iff m).mp h2
      rw [classifySafetyVerdict_safe m h' h2]
      refine ⟨⟨fun hc => absurd hc (by decide), fun hc => absurd hc hO⟩,
        ⟨fun _ => ⟨hO, hM⟩, fun _ => rfl⟩,
        ⟨fun hc => absurd hc (by decide), fun hc => absurd hM hc.2⟩⟩
    · have h2' : (m.min_inter_start_s.any fun s => decide ((0.45 : ℚ) ≤ s)) = false := by
        simpa using h2
      have hM : ¬ MinInterOk m := fun hc => h2 ((minInter_iff m).mpr hc)
      rw [classifySafetyVerdict_borderline m h' h2']
      refine ⟨⟨fun hc => absurd hc (by decide), fun hc => absurd hc hO⟩,
        ⟨fun hc => absurd hc (by decide), fun hc => absurd hc.2 hM⟩,
        ⟨fun _ => ⟨hO, hM⟩, fun _ => rfl⟩⟩

/-- Claim C9: with no 429s, peak/avg each null or at most 2.0, and a null
minimum inter-start gap, the classifiers fall through to PARTIAL / BORDERLINE;
null rate fields never trigger the over-threshold branch and a null gap never
yields ACTIVE / SAFE. -/
theorem null_metrics_verdicts :
    (∀ m : Metrics, m.any_429_count = 0 →
      (∀ p, m.peak_rps = some p → p ≤ (2.0 : ℚ)) →
      (∀ a, m.avg_rps = some a → a ≤ (2.0 : ℚ)) →
      m.min_inter_start_s = none →
      classifyLimiterVerdict m = "PARTIAL" ∧ classifySafetyVerdict m = "BORDERLINE") ∧
    (∀ m : Metrics, m.min_inter_start_s = none →
      classifyLimiterVerdict m ≠ "ACTIVE" ∧ classifySafetyVerdict m ≠ "SAFE") := by
  have hover : ∀ m : Metrics, m.any_429_count = 0 →
      (∀ p, m.peak_rps = some p → p ≤ (2.0 : ℚ)) →
      (∀ a, m.avg_rps = some a → a ≤ (2.0 : ℚ)) → overRps m = false := by
    intro m h429 hp ha
    obtain ⟨p?, a?, s?, c⟩ := m
    simp only at h429 hp ha
    subst h429
    have hp' : (p?.any fun p => decide ((2.0 : ℚ) < p)) = false := by
      cases p? with
      | none => rfl
      | some p =>
        simp only [Option.any, decide_eq_false_iff_not, not_lt]
        exact hp p rfl
    have ha' : (a?.any fun a => decide ((2.0 : ℚ) < a)) = false := by
      cases a? with
      | none => rfl
      | some a =>
        simp only [Option.any, decide_eq_false_iff_not, not_lt]
        exact ha a rfl
    simp [overRps, hp', ha']
  have hnone : ∀ m : Metrics, m.min_inter_start_s = none →
      (m.min_inter_start_s.any fun s => decide ((0.45 : ℚ) ≤ s)) = false := by
    intro m hm
    rw [hm]
    rfl
  constructor
  · intro m h429 hp ha hm
    exact ⟨classifyLimiterVerdict_fallthrough m (hover m h429 hp ha) (hnone m hm),
      classifySafetyVerdict_borderline m (hover m h429 hp ha) (hnone m hm)⟩
  · intro m hm
    constructor
    · by_cases h : overRps m = true
      · rw [classifyLimiterVerdict_over m h]
        decide
      · rw [classifyLimiterVerdict_fallthrough m (by simpa using h) (hnone m hm)]
        decide
    · by_cases h : overRps m = true
      · rw [classifySafetyVerdict_over m h]
        decide
      · rw [classifySafetyVerdict_borderline m (by simpa using h) (hnone m hm)]
        decide

/-- Witness for C9 at the all-null metrics record with zero 429s. -/
theorem null_metrics_verdicts_witness :
    classifyLimiterVerdict ⟨none, none, none, 0⟩ = "PARTIAL" ∧
    classifySafetyVerdict ⟨none, none, none, 0⟩ = "BORDERLINE" ∧
    classifyLimiterVerdict ⟨none, none, none, 0⟩ ≠ "ACTIVE" ∧
    classifySafetyVerdict ⟨none, none, none, 0⟩ ≠ "SAFE" := by
  obtain ⟨h1, h2⟩ := null_metrics_verdicts.1 ⟨none, none, none, 0⟩ rfl
    (fun p hp => nomatch hp) (fun a ha => nomatch ha) rfl
  obtain ⟨h3, h4⟩ := null_metrics_verdicts.2 ⟨none, none, none, 0⟩ rfl
  exact ⟨h1, h2, h3, h4⟩

/-- The timeout verdict computation of src/unnamed/part_000, line 349:
postDurationMs < 1000 decides CONFIRMED, anything else NOT CONFIRMED. -/
def timeoutVerdict (postDurationMs : ℤ) : String :=
  if postDurationMs < 1000 then "CONFIRMED" else "NOT CONFIRMED"

/-- The null-guarded variant of scripts/playwright/manual_scan_1x10_no_playlist.spec.ts,
lines 302-305, which spells the negative verdict UNCONFIRMED. -/
def timeoutVerdictPlaywright (postDurationMs : Option ℤ) : String :=
  match postDurationMs with
  | some d => if d < 1000 then "CONFIRMED" else "UNCONFIRMED"
  | none => "UNCONFIRMED"

/-- Claim C3: the timeout verdict is CONFIRMED exactly when the scan-start
request latency is strictly below 1000 ms, and NOT CONFIRMED otherwise. -/
theorem timeout_verdict_iff (d : ℤ) :
    (timeoutVerdict d = "CONFIRMED" ↔ d < 1000) ∧
    (timeoutVerdict d = "NOT CONFIRMED" ↔ 1000 ≤ d) := by
  unfold timeoutVerdict
  by_cases h : d < 1000
  · rw [if_pos h]
    exact ⟨⟨fun _ => h, fun _ => rfl⟩,
      ⟨fun hc => absurd hc (by decide), fun hc => absurd h (not_lt.mpr hc)⟩⟩
  · rw [if_neg h]
    exact ⟨⟨fun hc => absurd hc (by decide), fun hc => absurd hc h⟩,
      ⟨fun _ => not_lt.mp h, fun _ => rfl⟩⟩

/-- Terminal scan statuses as the spec's data model declares them
(status enum: queued, running, completed, completed_partial, failed,
cancelled; terminal are the last four). -/
def terminalStatuses : List String :=
  ["completed", "completed_partial", "failed", "cancelled"]

/-- Break condition of the status-polling loop in src/unnamed/part_000,
lines 307-309: polling stops only on these three statuses. -/
def pollLoopBreak (status : String) : Bool :=
  status == "completed" || status == "failed" || status == "cancelled"

/-- Terminal-status recognition of the polling consumer in
src/scripts/playwright/manual_scan_1x10_no_playlist.spec.ts, lines 229-236:
completed / completed_partial return the payload, failed / cancelled throw. -/
def scanPayloadLoopTerminal (status : String) : Bool :=
  (status == "completed" || status == "completed_partial") ||
  (status == "failed" || status == "cancelled")

/-- Claim C5 (code bug): "completed_partial" is a terminal status per the
spec and is recognized as finished by the scripts/playwright polling
consumer, but the part_000 polling loop never breaks on it, so that consumer
keeps polling a finished scan until its 20-minute deadline. -/
theorem terminal_status_poll_gap :
    "completed_partial" ∈ terminalStatuses ∧
    scanPayloadLoopTerminal "completed_partial" = true ∧
    pollLoopBreak "completed_partial" = false := by
  decide

/-- Acknowledgment returned by a start request for a scan or refresh job. -/
structure StartAck where
  httpStatus : ℕ
  ok : Bool
  job_id : String
  status : String
deriving DecidableEq

/-- Registry of job ids currently running. -/
structure JobRegistry where
  running : List String
deriving DecidableEq

/-- Modelled from the spec: the start handler for refresh/scan jobs is not
under src/ (only its callers are: the smoke check in src/unnamed/part_008,
lines 192-219, and the e2e test in src/unnamed/part_002, lines 79-109).
Per the spec ("Starting a scan that is already running must be rejected or
treated as a no-op signaling already_running rather than spawning a
duplicate state machine"; "already running ... is a defined no-op outcome,
not a failure") and the callers' assertions (HTTP 200, ok=true, job_id
present, status field possibly "already_running"), a start request for an
already-running id acknowledges success and changes nothing; otherwise it
registers the id and acknowledges with status "started". -/
def startRefreshJob (reg : JobRegistry) (id : String) : JobRegistry × StartAck :=
  if id ∈ reg.running then
    (reg, ⟨200, true, id, "already_running"⟩)
  else
    (⟨id :: reg.running⟩, ⟨200, true, id, "started"⟩)

/-- Claim C6: starting a job that is already running is not a failure: the
request is acknowledged with HTTP 200, ok=true and the job id, the status
field signals already_running, and no duplicate execution is spawned (the
registry is unchanged). -/
theorem already_running_no_op (reg : JobRegistry) (id : String)
    (h : id ∈ reg.running) :
    (startRefreshJob reg id).2.httpStatus = 200 ∧
    (startRefreshJob reg id).2.ok = true ∧
    (startRefreshJob reg id).2.job_id = id ∧
    (startRefreshJob reg id).2.status = "already_running" ∧
    (startRefreshJob reg id).1 = reg := by
  simp [startRefreshJob, h]

/-- Witness for C6 on a registry already running the requested id. -/
theorem already_running_no_op_witness :
    ("job-1" ∈ (JobRegistry.mk ["job-1"]).running) ∧
    (startRefreshJob (JobRegistry.mk ["job-1"]) "job-1").2.status = "already_running" ∧
    (startRefreshJob (JobRegistry.mk ["job-1"]) "job-1").1 = JobRegistry.mk ["job-1"] := by
  have h := already_running_no_op (JobRegistry.mk ["job-1"]) "job-1" (by decide)
  exact ⟨by decide, h.2.2.2.1, h.2.2.2.2⟩

/-- Modelled from the spec: the Budget Pacer sleep conversion lives in
app/core/spotify.py, which is not under src/ (src/docs/commit_d46813b_analysis.md
documents it).  Per the spec the pacer computes its delay sleep_ms in
milliseconds and the current code sleeps time.sleep(sleep_ms / 1000) seconds. -/
def budgetPacerSleepS (sleep_ms : ℚ) : ℚ := sleep_ms / 1000

/-- The d46813b regression variant recorded in
src/docs/commit_d46813b_analysis.md: time.sleep(sleep_ms / 500). -/
def regressionSleepS (sleep_ms : ℚ) : ℚ := sleep_ms / 500

/-- Claim C8: the pacer delay is milliseconds divided by exactly 1000 before
sleeping (1000 ms budget sleeps 1 s); the banned divisor 500 would sleep
2 s on the same budget, doubling every sleep. -/
theorem budget_pacer_divisor (ms : ℚ) (h : 0 < ms) :
    budgetPacerSleepS ms * 1000 = ms ∧
    budgetPacerSleepS 1000 = 1 ∧
    regressionSleepS 1000 = 2 ∧
    regressionSleepS ms = 2 * budgetPacerSleepS ms ∧
    budgetPacerSleepS ms < regressionSleepS ms := by
  refine ⟨?_, by norm_num [budgetPacerSleepS], by norm_num [regressionSleepS], ?_, ?_⟩
  · unfold budgetPacerSleepS
    field_simp
  · unfold budgetPacerSleepS regressionSleepS
    ring
  · unfold budgetPacerSleepS regressionSleepS
    rw [div_lt_div_iff₀ (by norm_num) (by norm_num)]
    nlinarith

/-- Witness for C8 at the 1000 ms budget of Scenario C. -/
theorem budget_pacer_divisor_witness :
    (0 : ℚ) < 1000 ∧ budgetPacerSleepS 1000 = 1 ∧ regressionSleepS 1000 = 2 := by
  have h := budget_pacer_divisor 1000 (by norm_num)
  exact ⟨by norm_num, h.2.1, h.2.2.1⟩

/-- Initial poll delay of the part_000 status-polling client (line 295). -/
def initialPollDelayMs : ℕ := 2000

/-- Poll delay cap (part_000, line 296). -/
def maxPollDelayMs : ℕ := 10000

/-- Maximum total polling duration (part_000, line 298: 20 * 60 * 1000 ms). -/
def maxPollDurationMs : ℕ := 20 * 60 * 1000

/-- Delay waited after the n-th poll (part_000, lines 311-312: starts at
2000 ms, then min(previous + 1000, maxPollDelayMs) after each wait). -/
def pollDelayMs : ℕ → ℕ
  | 0 => initialPollDelayMs
  | n + 1 => min (pollDelayMs n + 1000) maxPollDelayMs

/-- Total time spent waiting before the n-th poll iteration when every poll
returns a non-terminal status; the loop guard (line 301) compares this
elapsed time against maxPollDurationMs. -/
def pollElapsedMs : ℕ → ℕ
  | 0 => 0
  | n + 1 => pollElapsedMs n + pollDelayMs n

lemma pollDelayMs_eq (n : ℕ) : pollDelayMs n = min (2000 + n * 1000) 10000 := by
  induction n with
  | zero => rfl
  | succ n ih =>
    simp only [pollDelayMs, ih, maxPollDelayMs]
    omega

lemma pollElapsedMs_le_succ (n : ℕ) : pollElapsedMs n ≤ pollElapsedMs (n + 1) := by
  simp only [pollElapsedMs]
  exact Nat.le_add_right _ _

lemma pollElapsedMs_mono {m n : ℕ} (h : m ≤ n) :
    pollElapsedMs m ≤ pollElapsedMs n := by
  induction h with
  | refl => exact le_rfl
  | step h ih => exact le_trans ih (pollElapsedMs_le_succ _)

set_option maxRecDepth 4000 in
/-- Claim C7: the poll delay sequence is min(2000 + n * 1000, 10000) ms, and
the loop gives up after a bounded total wait: even if no terminal status ever
arrives, the guard fails by iteration 124, with total waiting time at most
maxPollDurationMs plus one capped delay. -/
theorem poll_backoff_spec :
    (∀ n : ℕ, pollDelayMs n = min (2000 + n * 1000) 10000) ∧
    (∀ n : ℕ, pollElapsedMs n < maxPollDurationMs → n < 124) ∧
    pollElapsedMs 124 ≤ maxPollDurationMs + maxPollDelayMs := by
  refine ⟨pollDelayMs_eq, ?_, by decide⟩
  intro n h
  by_contra hn
  have h124 : 124 ≤ n := not_lt.mp hn
  have h2 : maxPollDurationMs ≤ pollElapsedMs 124 := by decide
  have h3 := le_trans h2 (pollElapsedMs_mono h124)
  omega

set_option maxRecDepth 4000 in
/-- Witness for C7: after 50 polls the elapsed wait is still under the
deadline, and the iteration bound applies. -/
theorem poll_backoff_witness :
    pollElapsedMs 50 < maxPollDurationMs ∧ 50 < 124 :=
  ⟨by decide, poll_backoff_spec.2.1 50 (by decide)⟩

/-- Keyword separators of parseKeywords (src/unnamed/part_006, line 4:
the split regex character class is comma and newline). -/
def isKeywordSep (c : Char) : Bool := c == ',' || c == '\n'

/-- Separator set of the specification reading: comma and newline, where a
newline may also be written in its carriage-return forms (CRLF or lone CR). -/
def isSpecSep (c : Char) : Bool := c == ',' || c == '\n' || c == '\r'

/-- The carriage-return normalization of parseKeywords (part_006, line 2:
String(raw).replace of each CRLF or lone CR by a newline, left to right). -/
def normalizeCR : List Char → List Char
  | [] => []
  | [c] => if c = '\r' then ['\n'] else [c]
  | c :: d :: rest =>
    if c = '\r' then
      if d = '\n' then '\n' :: normalizeCR rest
      else '\n' :: normalizeCR (d :: rest)
    else c :: normalizeCR (d :: rest)

/-- One pass of JavaScript String.split over single separator characters:
returns the pieces between separators, empty pieces included (the source
splits on runs of separators, part_006 line 4; a run of k separators under
single-character splitting yields k-1 empty pieces, all of which the
non-empty filter below removes, so the two splits agree after filtering). -/
def splitSepsCore (p : Char → Bool) : List Char → List Char × List (List Char)
  | [] => ([], [])
  | c :: rest =>
    let r := splitSepsCore p rest
    if p c then ([], r.1 :: r.2) else (c :: r.1, r.2)

/-- All pieces of the split, in order. -/
def splitSeps (p : Char → Bool) (l : List Char) : List (List Char) :=
  (splitSepsCore p l).1 :: (splitSepsCore p l).2

/-- JavaScript String.trim on a piece (part_006, line 5): drop whitespace
from both ends. -/
def trimPiece (l : List Char) : List Char :=
  ((l.dropWhile Char.isWhitespace).reverse.dropWhile Char.isWhitespace).reverse

/-- Trim every piece and keep the non-empty ones (part_006, lines 5-6:
.map trim followed by .filter Boolean). -/
def cleanTokens (pieces : List (List Char)) : List (List Char) :=
  (pieces.map trimPiece).filter (fun t => !t.isEmpty)

/-- Case-insensitive dedup key (part_006, line 10: entry.toLowerCase()). -/
def lowerKey (l : List Char) : List Char := l.map Char.toLower

/-- First-occurrence case-insensitive deduplication (part_006, lines 7-16):
an entry whose lowercased key was already seen is dropped, otherwise it is
kept in place and its key recorded. -/
def dedupeKeywords (seen : List (List Char)) : List (List Char) → List (List Char)
  | [] => []
  | e :: rest =>
    if lowerKey e ∈ seen then dedupeKeywords seen rest
    else e :: dedupeKeywords (lowerKey e :: seen) rest

/-- The trimmed non-empty entries of parseKeywords (part_006, lines 2-6). -/
def keywordEntries (l : List Char) : List (List Char) :=
  cleanTokens (splitSeps isKeywordSep (normalizeCR l))

/-- parseKeywords (src/unnamed/part_006, lines 1-18). -/
def parseKeywords (raw : String) : List String :=
  (dedupeKeywords [] (keywordEntries raw.data)).map (fun l => String.mk l)

/-- The specification reading of the tokenization: split the raw input on
comma/newline separators (newline in any of its textual forms), trim each
token, drop the empty ones.  Consecutive separators collapsing into one is
realized by the non-empty filter, which removes the empty pieces a
separator run produces. -/
def specKeywordTokens (l : List Char) : List (List Char) :=
  cleanTokens (splitSeps isSpecSep l)

/-- The specification reading of parseKeywords: the ordered,
case-insensitive-deduplicated sequence of trimmed non-empty tokens,
first-seen casing preserved. -/
def specParseKeywords (raw : String) : List String :=
  (dedupeKeywords [] (specKeywordTokens raw.data)).map (fun l => String.mk l)

lemma normalizeCR_cons_ne (c : Char) (xs : List Char) (h : c ≠ '\r') :
    normalizeCR (c :: xs) = c :: normalizeCR xs := by
  cases xs with
  | nil => simp [normalizeCR, h]
  | cons d rest => simp [normalizeCR, h]

lemma normalizeCR_no_cr (l : List Char) : '\r' ∉ normalizeCR l := by
  induction l with
  | nil => simp [normalizeCR]
  | cons c rest ih =>
    by_cases hc : c = '\r'
    · subst hc
      cases rest with
      | nil => simp [normalizeCR]
      | cons d rest2 =>
        by_cases hd : d = '\n'
        · subst hd
          have e1 : normalizeCR ('\r' :: '\n' :: rest2) = '\n' :: normalizeCR rest2 := by
            simp [normalizeCR]
          have e2 : normalizeCR ('\n' :: rest2) = '\n' :: normalizeCR rest2 :=
            normalizeCR_cons_ne _ _ (by decide)
          rw [e1]
          rw [e2] at ih
          exact ih
        · have e1 : normalizeCR ('\r' :: d :: rest2) = '\n' :: normalizeCR (d :: rest2) := by
            simp [normalizeCR, hd]
          rw [e1]
          intro hmem
          rcases List.mem_cons.mp hmem with h | h
          · exact absurd h (by decide)
          · exact ih h
    · rw [normalizeCR_cons_ne c rest hc]
      intro hmem
      rcases List.mem_cons.mp hmem with h | h
      · exact hc h.symm
      · exact ih h

lemma normalizeCR_of_no_cr (l : List Char) (h : '\r' ∉ l) : normalizeCR l = l := by
  induction l with
  | nil => rfl
  | cons c rest ih =>
    have hc : c ≠ '\r' := by
      intro hcc
      apply h
      rw [hcc]
      exact List.Mem.head _
    rw [normalizeCR_cons_ne c rest hc,
      ih (fun hm => h (List.mem_cons_of_mem c hm))]

lemma normalizeCR_idem (l : List Char) :
    normalizeCR (normalizeCR l) = normalizeCR l :=
  normalizeCR_of_no_cr _ (normalizeCR_no_cr l)

lemma splitSepsCore_cons (p : Char → Bool) (c : Char) (l : List Char) :
    splitSepsCore p (c :: l) =
      if p c then ([], (splitSepsCore p l).1 :: (splitSepsCore p l).2)
      else (c :: (splitSepsCore p l).1, (splitSepsCore p l).2) := rfl

lemma cleanTokens_cons (x : List Char) (xs : List (List Char)) :
    cleanTokens (x :: xs) =
      if (trimPiece x).isEmpty then cleanTokens xs
      else trimPiece x :: cleanTokens xs := by
  by_cases h : (trimPiece x).isEmpty
  · simp [cleanTokens, List.filter_cons, h]
  · simp [cleanTokens, List.filter_cons, h]

lemma splitSepsCore_sep (p : Char → Bool) (c : Char) (l : List Char)
    (h : p c = true) :
    splitSepsCore p (c :: l) =
      ([], (splitSepsCore p l).1 :: (splitSepsCore p l).2) := by
  rw [splitSepsCore_cons, if_pos h]

lemma cleanTokens_cons_nil (xs : List (List Char)) :
    cleanTokens ([] :: xs) = cleanTokens xs := by
  rw [cleanTokens_cons, if_pos (show (trimPiece ([] : List Char)).isEmpty = true from rfl)]

lemma cleanTokens_cons_congr {x y : List Char} {xs ys : List (List Char)}
    (hx : x = y) (hxs : cleanTokens xs = cleanTokens ys) :
    cleanTokens (x :: xs) = cleanTokens (y :: ys) := by
  subst hx
  rw [cleanTokens_cons, cleanTokens_cons, hxs]

lemma sep_eq (c : Char) (h : c ≠ '\r') : isSpecSep c = isKeywordSep c := by
  unfold isSpecSep isKeywordSep
  have hb : (c == '\r') = false := by
    simp [h]
  rw [hb, Bool.or_false]

lemma splitSepsCore_norm (l : List Char) :
    (splitSepsCore isKeywordSep (normalizeCR l)).1 = (splitSepsCore isSpecSep l).1 ∧
    cleanTokens (splitSepsCore isKeywordSep (normalizeCR l)).2 =
      cleanTokens (splitSepsCore isSpecSep l).2 := by
  induction l with
  | nil => exact ⟨rfl, rfl⟩
  | cons c rest ih =>
    by_cases hc : c = '\r'
    · subst hc
      cases rest with
      | nil => exact ⟨rfl, rfl⟩
      | cons d rest2 =>
        by_cases hd : d = '\n'
        · subst hd
          have e1 : normalizeCR ('\r' :: '\n' :: rest2) = '\n' :: normalizeCR rest2 := by
            simp [normalizeCR]
          have e2 : normalizeCR ('\n' :: rest2) = '\n' :: normalizeCR rest2 :=
            normalizeCR_cons_ne _ _ (by decide)
          rw [e2] at ih
          rw [e1,
            splitSepsCore_sep isKeywordSep '\n' (normalizeCR rest2) rfl,
            splitSepsCore_sep isSpecSep '\r' ('\n' :: rest2) rfl,
            splitSepsCore_sep isSpecSep '\n' rest2 rfl]
          rw [splitSepsCore_sep isKeywordSep '\n' (normalizeCR rest2) rfl,
            splitSepsCore_sep isSpecSep '\n' rest2 rfl] at ih
          refine ⟨rfl, ?_⟩
          show cleanTokens ((splitSepsCore isKeywordSep (normalizeCR rest2)).1 ::
              (splitSepsCore isKeywordSep (normalizeCR rest2)).2) =
            cleanTokens (([] : List Char) :: (splitSepsCore isSpecSep rest2).1 ::
              (splitSepsCore isSpecSep rest2).2)
          rw [cleanTokens_cons_nil]
          exact ih.2
        · have e1 : normalizeCR ('\r' :: d :: rest2) = '\n' :: normalizeCR (d :: rest2) := by
            simp [normalizeCR, hd]
          rw [e1,
            splitSepsCore_sep isKeywordSep '\n' (normalizeCR (d :: rest2)) rfl,
            splitSepsCore_sep isSpecSep '\r' (d :: rest2) rfl]
          exact ⟨rfl, cleanTokens_cons_congr ih.1 ih.2⟩
    · rw [normalizeCR_cons_ne c rest hc]
      rw [splitSepsCore_cons, splitSepsCore_cons, sep_eq c hc]
      by_cases hs : isKeywordSep c = true
      · rw [if_pos hs, if_pos hs]
        exact ⟨rfl, cleanTokens_cons_congr ih.1 ih.2⟩
      · rw [if_neg hs, if_neg hs]
        refine ⟨?_, ih.2⟩
        rw [ih.1]

lemma keywordEntries_eq_spec (l : List Char) :
    keywordEntries l = specKeywordTokens l := by
  have h := splitSepsCore_norm l
  unfold keywordEntries specKeywordTokens splitSeps
  rw [cleanTokens_cons, cleanTokens_cons, h.1, h.2]

/-- Claim C4: parseKeywords returns the trimmed, non-empty tokens obtained by
splitting on commas and newlines (consecutive separators collapsing),
deduplicated case-insensitively keeping the first occurrence's casing and
position, with the two scenario-D examples. -/
theorem parseKeywords_normalization :
    (∀ raw : String, parseKeywords raw = specParseKeywords raw) ∧
    parseKeywords ("lofi, focus\nchill,\nsleep") = ["lofi", "focus", "chill", "sleep"] ∧
    parseKeywords ("musik zum joggen\nMusik zum joggen") = ["musik zum joggen"] := by
  refine ⟨fun raw => ?_, by decide, by decide⟩
  unfold parseKeywords specParseKeywords
  rw [keywordEntries_eq_spec]

lemma trimPiece_subset {c : Char} {t : List Char} (h : c ∈ trimPiece t) : c ∈ t := by
  unfold trimPiece at h
  rw [List.mem_reverse] at h
  have h1 := (List.dropWhile_sublist _).subset h
  rw [List.mem_reverse] at h1
  exact (List.dropWhile_sublist _).subset h1

lemma splitSepsCore_mem (p : Char → Bool) (l : List Char) :
    (∀ c ∈ (splitSepsCore p l).1, c ∈ l) ∧
    (∀ piece ∈ (splitSepsCore p l).2, ∀ c ∈ piece, c ∈ l) := by
  induction l with
  | nil =>
    exact ⟨fun c hc => absurd hc (List.not_mem_nil c),
      fun piece hp => absurd hp (List.not_mem_nil piece)⟩
  | cons a rest ih =>
    rw [splitSepsCore_cons]
    by_cases hs : p a = true
    · rw [if_pos hs]
      refine ⟨fun c hc => absurd hc (List.not_mem_nil c), ?_⟩
      intro piece hp c hc
      rcases List.mem_cons.mp hp with h | h
      · exact List.mem_cons_of_mem a (ih.1 c (h ▸ hc))
      · exact List.mem_cons_of_mem a (ih.2 piece h c hc)
    · rw [if_neg hs]
      constructor
      · intro c hc
        rcases List.mem_cons.mp hc with h | h
        · rw [h]
          exact List.Mem.head _
        · exact List.mem_cons_of_mem a (ih.1 c h)
      · intro piece hp c hc
        exact List.mem_cons_of_mem a (ih.2 piece hp c hc)

lemma mem_cleanTokens {t : List Char} {pieces : List (List Char)}
    (h : t ∈ cleanTokens pieces) : ∃ x ∈ pieces, t = trimPiece x := by
  unfold cleanTokens at h
  rw [List.mem_filter] at h
  obtain ⟨hmap, _⟩ := h
  rw [List.mem_map] at hmap
  obtain ⟨x, hx, hxt⟩ := hmap
  exact ⟨x, hx, hxt.symm⟩

lemma mem_dedupeKeywords {t : List Char} :
    ∀ (seen entries : List (List Char)),
      t ∈ dedupeKeywords seen entries → t ∈ entries := by
  intro seen entries
  induction entries generalizing seen with
  | nil =>
    intro h
    exact absurd h (List.not_mem_nil t)
  | cons e rest ih =>
    intro h
    simp only [dedupeKeywords] at h
    by_cases hk : lowerKey e ∈ seen
    · rw [if_pos hk] at h
      exact List.mem_cons_of_mem e (ih _ h)
    · rw [if_neg hk] at h
      rcases List.mem_cons.mp h with h1 | h1
      · rw [h1]
        exact List.Mem.head _
      · exact List.mem_cons_of_mem e (ih _ h1)

lemma parseKeywords_token_mem {s t : String} (h : t ∈ parseKeywords s) :
    ∀ c ∈ t.data, c ∈ normalizeCR s.data := by
  unfold parseKeywords at h
  rw [List.mem_map] at h
  obtain ⟨l, hl, hlt⟩ := h
  have h2 := mem_dedupeKeywords _ _ hl
  unfold keywordEntries at h2
  obtain ⟨x, hx, hxl⟩ := mem_cleanTokens h2
  intro c hc
  have hcl : c ∈ l := by
    rw [← hlt] at hc
    exact hc
  rw [hxl] at hcl
  have hcx : c ∈ x := trimPiece_subset hcl
  unfold splitSeps at hx
  rcases List.mem_cons.mp hx with h1 | h1
  · exact (splitSepsCore_mem isKeywordSep (normalizeCR s.data)).1 c (h1 ▸ hcx)
  · exact (splitSepsCore_mem isKeywordSep (normalizeCR s.data)).2 x h1 c hcx

/-- Claim C10: parseKeywords is invariant under carriage-return
normalization (replacing every CRLF and lone CR by a newline), and no
carriage return ever appears in a returned token. -/
theorem parseKeywords_cr_invariant (s : String) :
    parseKeywords s = parseKeywords (String.mk (normalizeCR s.data)) ∧
    ∀ t ∈ parseKeywords s, '\r' ∉ t.data := by
  constructor
  · unfold parseKeywords keywordEntries
    rw [show (String.mk (normalizeCR s.data)).data = normalizeCR s.data from rfl]
    rw [normalizeCR_idem]
  · intro t ht hr
    exact absurd (parseKeywords_token_mem ht '\r' hr) (normalizeCR_no_cr s.data)

/-- Witness for C10 on an input with a Windows line ending. -/
theorem parseKeywords_cr_witness :
    parseKeywords ("a,\r\nb") = parseKeywords (String.mk (normalizeCR ("a,\r\nb").data)) ∧
    '\r' ∉ ("a").data := by
  refine ⟨(parseKeywords_cr_invariant ("a,\r\nb")).1, ?_⟩
  exact (parseKeywords_cr_invariant ("a,\r\nb")).2 ("a") (by decide)

end RankChecker
